import Mathlib

/-!
Shallow embedding of the PDG graph-assembly core of `pdg/src/builder.rs`
(types from `pdg/src/graph.rs` and the `c2rust-analysis-rt` event model as
used by the builder), together with theorems settling the specification
claims about it.

Machine pointers, function hashes (`DefPathHash`) and MIR locals are
modelled as `Nat`; `HashMap`s are modelled as association lists whose
lookup returns the most recently inserted binding; Rust panics (`unwrap`,
out-of-bounds indexing) are modelled as `Except.error`.
-/

namespace PDG

abbrev Pointer := Nat

abbrev Fn := Nat

/-- Operand descriptor (`MirPlace`): a variable slot plus a field-projection
path.  The Rust `local` field is spelled `localVar` because `local` is a
Lean keyword. -/
structure MirPlace where
  localVar : Nat
  projection : List Nat
deriving DecidableEq, Repr

/-- Transfer hint (`TransferKind`). -/
inductive TransferKind where
  | none
  | arg (f : Fn)
  | ret (f : Fn)
deriving DecidableEq, Repr

/-- Event metadata (`EventMetadata`): optional source and destination
operand descriptors plus the transfer hint. -/
structure EventMetadata where
  source : Option MirPlace
  destination : Option MirPlace
  transfer_kind : TransferKind
deriving DecidableEq, Repr

/-- The event vocabulary (`EventKind`), with the pointer payloads the
builder consumes. -/
inductive EventKind where
  | alloc (ptr : Pointer)
  | realloc (old_ptr new_ptr : Pointer)
  | free (ptr : Pointer)
  | copyPtr (ptr : Pointer)
  | copyRef
  | field (ptr : Pointer) (idx : Nat)
  | loadAddr (ptr : Pointer)
  | storeAddr (ptr : Pointer)
  | loadValue (ptr : Pointer)
  | storeValue (ptr : Pointer)
  | addrOfLocal (ptr : Pointer) (l : Nat)
  | toInt (ptr : Pointer)
  | fromInt (ptr : Pointer)
  | offset (ptr : Pointer) (off : Int) (new_ptr : Pointer)
  | ret (ptr : Pointer)
  | done
deriving DecidableEq, Repr

/-- `NodeKind`: the subset of event kinds meaningful to the graph. -/
inductive NodeKind where
  | malloc (n : Nat)
  | free
  | copy
  | field (i : Nat)
  | loadAddr
  | storeAddr
  | loadValue
  | storeValue
  | addrOfLocal (l : Nat)
  | ptrToInt
  | intToPtr
  | offset (o : Int)
deriving DecidableEq, Repr

/-- A PDG node (`Node`). -/
structure Node where
  function : Fn
  block : Nat
  index : Nat
  kind : NodeKind
  source : Option Nat
  dest : Option MirPlace
deriving DecidableEq, Repr

/-- One graph: an append-only ordered sequence of nodes. -/
structure Graph where
  nodes : List Node
deriving DecidableEq, Repr

/-- A latest-assignment table: (function, local slot) to (graph id, node id). -/
abbrev LAMap := List ((Fn × Nat) × (Nat × Nat))

/-- Top-level `Graphs`: the graph arena plus the latest-assignment table. -/
structure Graphs where
  graphs : List Graph
  latest_assignment : LAMap
deriving DecidableEq, Repr

/-- Provenance table: pointer value to (graph id, node id). -/
abbrev Prov := List (Pointer × (Nat × Nat))

/-- A resolved location (`MirLoc`): enclosing function, block and statement
indices, and the event metadata stored alongside them. -/
structure MirLoc where
  body_def : Fn
  basic_block_idx : Nat
  statement_idx : Nat
  metadata : EventMetadata
deriving DecidableEq, Repr

/-- The location backing store queried by `mir_loc::get`. -/
abbrev LocMap := List (Nat × MirLoc)

/-- An event: an opaque location reference and a kind. -/
structure Event where
  mir_loc : Nat
  kind : EventKind
deriving DecidableEq, Repr

/-- Association-list lookup, modelling `HashMap::get`: the most recently
inserted binding for a key wins. -/
def alookup {K V : Type} [DecidableEq K] (m : List (K × V)) (k : K) : Option V :=
  (m.find? (fun p => decide (p.1 = k))).map Prod.snd

/-- Association-list insert, modelling `HashMap::insert` (shadowing). -/
def ainsert {K V : Type} [DecidableEq K] (m : List (K × V)) (k : K) (v : V) :
    List (K × V) :=
  (k, v) :: m

/-- Iterator `rposition`: index of the last element satisfying `p`. -/
def rposition {α : Type} (p : α → Bool) : List α → Option Nat
  | [] => none
  | x :: xs =>
    match rposition p xs with
    | some i => some (i + 1)
    | none => if p x then some 0 else none

/-- `EventKindExt::ptr`: the pointer of interest for an event. -/
def EventKind.ptr (k : EventKind) (_metadata : EventMetadata) : Option Pointer :=
  match k with
  | .copyPtr lhs => some lhs
  | .field p _ => some p
  | .free p => some p
  | .ret p => some p
  | .loadAddr p => some p
  | .storeAddr p => some p
  | .loadValue p => some p
  | .storeValue p => some p
  | .copyRef => none
  | .toInt p => some p
  | .realloc old_ptr _ => some old_ptr
  | .fromInt lhs => some lhs
  | .alloc p => some p
  | .addrOfLocal lhs _ => some lhs
  | .offset p _ _ => some p
  | .done => none

/-- `EventKindExt::has_parent`. -/
def EventKind.has_parent (k : EventKind) : Bool :=
  match k with
  | .realloc _ _ => false
  | .alloc _ => false
  | .addrOfLocal _ _ => false
  | .done => false
  | _ => true

/-- `EventKindExt::parent`, exactly as written in the source: it returns
`none` when `has_parent` is `true` and `some obj` when it is `false`. -/
def EventKind.parent (k : EventKind) (obj : Nat × Nat) : Option (Nat × Nat) :=
  if k.has_parent then none else some obj

/-- `EventKindExt::to_node_kind`. -/
def EventKind.to_node_kind (k : EventKind) : Option NodeKind :=
  match k with
  | .alloc _ => some (.malloc 1)
  | .realloc _ _ => some (.malloc 1)
  | .free _ => some .free
  | .copyPtr _ => some .copy
  | .copyRef => some .copy
  | .field _ f => some (.field f)
  | .loadAddr _ => some .loadAddr
  | .storeAddr _ => some .storeAddr
  | .loadValue _ => some .loadValue
  | .storeValue _ => some .storeValue
  | .addrOfLocal _ l => some (.addrOfLocal l)
  | .toInt _ => some .ptrToInt
  | .fromInt _ => some .intToPtr
  | .ret _ => none
  | .offset _ o _ => some (.offset o)
  | .done => none

/-- `update_provenance`.  The `CopyRef` arm unwraps the destination
descriptor (a panic when it is absent); the `CopyPtr` arm is Rust's
`try_insert`: it binds only when the pointer has no existing entry. -/
def update_provenance (provenances : Prov) (event_kind : EventKind)
    (metadata : EventMetadata) (mapping : Nat × Nat) : Except String Prov :=
  match event_kind with
  | .alloc p => Except.ok (ainsert provenances p mapping)
  | .copyPtr p =>
    Except.ok (if (alookup provenances p).isSome then provenances
      else ainsert provenances p mapping)
  | .realloc _ new_ptr => Except.ok (ainsert provenances new_ptr mapping)
  | .offset _ _ new_ptr => Except.ok (ainsert provenances new_ptr mapping)
  | .copyRef =>
    match metadata.destination with
    | some d => Except.ok (ainsert provenances d.localVar mapping)
    | none => Except.error (r"called unwrap on a None destination in CopyRef")
  | .addrOfLocal p _ => Except.ok (ainsert provenances p mapping)
  | _ => Except.ok provenances

/-- The (source function, destination function) pair derived from the
transfer hint. -/
def fn_pair (this_func_hash : Fn) (tk : TransferKind) : Fn × Fn :=
  match tk with
  | .none => (this_func_hash, this_func_hash)
  | .arg p => (this_func_hash, p)
  | .ret p => (p, this_func_hash)

/-- Source function of a resolved location. -/
def src_fn (loc : MirLoc) : Fn :=
  (fn_pair loc.body_def loc.metadata.transfer_kind).1

/-- Destination function of a resolved location. -/
def dest_fn (loc : MirLoc) : Fn :=
  (fn_pair loc.body_def loc.metadata.transfer_kind).2

/-- Block index after the `Arg` relocation rule (forced to 0). -/
def block_idx (loc : MirLoc) : Nat :=
  match loc.metadata.transfer_kind with
  | .arg _ => 0
  | _ => loc.basic_block_idx

/-- Statement index after the `Arg` relocation rule (forced to 0). -/
def stmt_idx (loc : MirLoc) : Nat :=
  match loc.metadata.transfer_kind with
  | .arg _ => 0
  | _ => loc.statement_idx

/-- `head`: the raw provenance hit for the event's pointer of interest. -/
def compute_head (provenances : Prov) (k : EventKind) (metadata : EventMetadata) :
    Option (Nat × Nat) :=
  (k.ptr metadata).bind (fun p => alookup provenances p)

/-- `ptr`: the backward scan of `head`'s graph for the most recent node
whose `dest` equals the event's declared source descriptor.  Indexing the
arena with an invalid graph id is a panic. -/
def compute_ptr (graphs : Graphs) (metadata : EventMetadata)
    (head : Option (Nat × Nat)) : Except String (Option (Nat × Nat)) :=
  match head with
  | none => Except.ok none
  | some (gid, _) =>
    match graphs.graphs[gid]? with
    | none => Except.error (r"graph index out of bounds")
    | some g =>
      Except.ok ((rposition (fun n =>
        match n.dest, metadata.source with
        | some d, some s => decide (d = s)
        | _, _ => false) g.nodes).map (fun nid => (gid, nid)))

/-- The reverse loop over the latest-assignment target graph: it returns the
last node's index when that node is a `Field` node and otherwise breaks at
once, so only the most recent node is ever examined. -/
def field_scan (graphs : Graphs) (src : MirPlace)
    (latest : Option (Nat × Nat)) : Except String (Option (Nat × Nat)) :=
  if src.projection.isEmpty then Except.ok none
  else
    match latest with
    | none => Except.ok none
    | some (gid, _) =>
      match graphs.graphs[gid]? with
      | none => Except.error (r"graph index out of bounds")
      | some g =>
        match g.nodes.getLast? with
        | none => Except.ok none
        | some n =>
          match n.kind with
          | NodeKind.field _ => Except.ok (some (gid, g.nodes.length - 1))
          | _ => Except.ok none

/-- The `source` candidate computation of `add_node` (builder.rs lines
185-208): `ptr` first; otherwise, when a source descriptor is declared, the
field scan, then the latest-assignment entry for an empty projection or a
`Field` event, and `head` for the remaining non-empty-projection cases. -/
def compute_source (graphs : Graphs) (metadata : EventMetadata)
    (event_kind : EventKind) (sfn : Fn) (head ptr : Option (Nat × Nat)) :
    Except String (Option (Nat × Nat)) :=
  match ptr with
  | some p => Except.ok (some p)
  | none =>
    match metadata.source with
    | none => Except.ok none
    | some src =>
      match field_scan graphs src
        (alookup graphs.latest_assignment (sfn, src.localVar)) with
      | Except.error m => Except.error m
      | Except.ok (some p) => Except.ok (some p)
      | Except.ok none =>
        Except.ok (if src.projection.isEmpty then
            alookup graphs.latest_assignment (sfn, src.localVar)
          else
            match event_kind with
            | EventKind.field _ _ =>
              alookup graphs.latest_assignment (sfn, src.localVar)
            | _ => head)

/-- Rust's `Option::or`. -/
def ror {α : Type} (a b : Option α) : Option α :=
  match a with
  | some x => some x
  | none => b

/-- The node built for an event (builder.rs lines 210-219). -/
def the_node (event : Event) (loc : MirLoc) (node_kind : NodeKind)
    (source : Option (Nat × Nat)) : Node :=
  { function := dest_fn loc
    block := block_idx loc
    index := stmt_idx loc
    kind := node_kind
    source := (source.bind (event.kind.parent)).map Prod.snd
    dest := loc.metadata.destination }

/-- The graph choice `source.or(ptr).or(head).and_then(parent)`. -/
def graph_choice (k : EventKind) (source ptr head : Option (Nat × Nat)) :
    Option (Nat × Nat) :=
  (ror (ror source ptr) head).bind (k.parent)

/-- The latest-assignment update (builder.rs lines 231-249), including the
whole-object restore rule; the read of the previous node's `dest` unwraps
(a panic when absent) and indexes the post-push arena. -/
def update_latest_assignment (gs2 : List Graph) (la : LAMap) (dfn : Fn)
    (destination : Option MirPlace) (graph_id node_id : Nat) :
    Except String LAMap :=
  match destination with
  | none => Except.ok la
  | some dest =>
    match alookup la (dfn, dest.localVar) with
    | none => Except.ok (ainsert la (dfn, dest.localVar) (graph_id, node_id))
    | some (last_gid, last_nid) =>
      if dest.projection.isEmpty then
        Except.ok (ainsert la (dfn, dest.localVar) (graph_id, node_id))
      else
        match gs2[last_gid]? with
        | none => Except.error (r"graph index out of bounds")
        | some lg =>
          match lg.nodes[last_nid]? with
          | none => Except.error (r"node index out of bounds")
          | some ln =>
            match ln.dest with
            | none => Except.error (r"called unwrap on a None dest")
            | some ld =>
              if ld.projection.isEmpty then
                Except.ok (ainsert (ainsert la (dfn, dest.localVar)
                  (graph_id, node_id)) (dfn, dest.localVar)
                  (last_gid, last_nid))
              else
                Except.ok (ainsert la (dfn, dest.localVar) (graph_id, node_id))

/-- Provenance update, node push and latest-assignment update, after the
insertion graph and node id are fixed. -/
def add_node_finish (graphs : Graphs) (provenances : Prov) (event : Event)
    (loc : MirLoc) (gs2 : List Graph) (graph_id node_id : Nat) :
    Except String (Graphs × Prov × Option Nat) :=
  match update_provenance provenances event.kind loc.metadata
      (graph_id, node_id) with
  | Except.error m => Except.error m
  | Except.ok prov2 =>
    match update_latest_assignment gs2 graphs.latest_assignment (dest_fn loc)
        loc.metadata.destination graph_id node_id with
    | Except.error m => Except.error m
    | Except.ok la2 => Except.ok (⟨gs2, la2⟩, prov2, some node_id)

/-- Append the node to the chosen graph of the (possibly extended) arena;
indexing with an invalid graph id is a panic. -/
def add_node_push (graphs : Graphs) (provenances : Prov) (event : Event)
    (loc : MirLoc) (node_kind : NodeKind) (source : Option (Nat × Nat))
    (graph_id : Nat) (gs1 : List Graph) :
    Except String (Graphs × Prov × Option Nat) :=
  match gs1[graph_id]? with
  | none => Except.error (r"graph index out of bounds")
  | some g =>
    add_node_finish graphs provenances event loc
      (gs1.set graph_id (Graph.mk
        (g.nodes ++ [the_node event loc node_kind source])))
      graph_id g.nodes.length

/-- Choose the insertion graph: the parent-filtered candidate's graph, or a
freshly pushed empty graph. -/
def add_node_insert (graphs : Graphs) (provenances : Prov) (event : Event)
    (loc : MirLoc) (node_kind : NodeKind)
    (head ptr source : Option (Nat × Nat)) :
    Except String (Graphs × Prov × Option Nat) :=
  match graph_choice event.kind source ptr head with
  | some (gid, _) =>
    add_node_push graphs provenances event loc node_kind source gid
      graphs.graphs
  | none =>
    add_node_push graphs provenances event loc node_kind source
      graphs.graphs.length (graphs.graphs ++ [Graph.mk []])

/-- The body of `add_node` once the location is resolved and `head` is
computed. -/
def add_node_with_head (graphs : Graphs) (provenances : Prov) (event : Event)
    (loc : MirLoc) (node_kind : NodeKind) (head : Option (Nat × Nat)) :
    Except String (Graphs × Prov × Option Nat) :=
  match compute_ptr graphs loc.metadata head with
  | Except.error m => Except.error m
  | Except.ok ptr =>
    match compute_source graphs loc.metadata event.kind (src_fn loc) head
        ptr with
    | Except.error m => Except.error m
    | Except.ok source =>
      add_node_insert graphs provenances event loc node_kind head ptr source

/-- `add_node`: the per-event driver.  `Except.error` models a Rust panic;
`Except.ok (graphs, provenances, r)` returns the updated state and the id
of the appended node, if any. -/
def add_node (locs : LocMap) (graphs : Graphs) (provenances : Prov)
    (event : Event) : Except String (Graphs × Prov × Option Nat) :=
  match event.kind.to_node_kind with
  | none => Except.ok (graphs, provenances, none)
  | some node_kind =>
    match alookup locs event.mir_loc with
    | none => Except.error (r"called unwrap on a None value in mir loc get")
    | some loc =>
      add_node_with_head graphs provenances event loc node_kind
        (compute_head provenances event.kind loc.metadata)

/-- The fold of `construct_pdg` over the trace, threading the graph arena
and the provenance table. -/
def construct_pdg_aux (locs : LocMap) : List Event → Graphs → Prov →
    Except String (Graphs × Prov)
  | [], graphs, provenances => Except.ok (graphs, provenances)
  | e :: es, graphs, provenances =>
    match add_node locs graphs provenances e with
    | Except.error m => Except.error m
    | Except.ok (graphs2, provenances2, _) =>
      construct_pdg_aux locs es graphs2 provenances2

/-- `construct_pdg`: fold the whole trace from the empty state. -/
def construct_pdg (locs : LocMap) (events : List Event) :
    Except String Graphs :=
  (construct_pdg_aux locs events ⟨[], []⟩ []).map Prod.fst

/-! Helper lemmas about the association-list maps and the backward scan. -/

theorem alookup_ainsert_self {K V : Type} [DecidableEq K] (m : List (K × V))
    (k : K) (v : V) : alookup (ainsert m k v) k = some v := by
  simp [alookup, ainsert, List.find?]

theorem alookup_ainsert_ne {K V : Type} [DecidableEq K] (m : List (K × V))
    (k k' : K) (v : V) (h : k' ≠ k) :
    alookup (ainsert m k v) k' = alookup m k' := by
  simp [alookup, ainsert, List.find?, Ne.symm h]

theorem alookup_mem {K V : Type} [DecidableEq K] {m : List (K × V)} {k : K}
    {v : V} (h : alookup m k = some v) : (k, v) ∈ m := by
  unfold alookup at h
  cases hf : m.find? (fun p => decide (p.1 = k)) with
  | none => rw [hf] at h; simp at h
  | some q =>
    rw [hf] at h
    simp only [Option.map_some', Option.some.injEq] at h
    have hm := List.mem_of_find?_eq_some hf
    have hp := List.find?_some hf
    simp only [decide_eq_true_eq] at hp
    have hq : q = (k, v) := by
      cases q with
      | mk a b => simp_all
    rw [hq] at hm
    exact hm

theorem rposition_lt {α : Type} (p : α → Bool) (l : List α) (i : Nat)
    (h : rposition p l = some i) : i < l.length := by
  induction l generalizing i with
  | nil => simp [rposition] at h
  | cons x xs ih =>
    unfold rposition at h
    cases hr : rposition p xs with
    | some j =>
      rw [hr] at h
      simp only [Option.some.injEq] at h
      subst h
      exact Nat.succ_lt_succ (ih j hr)
    | none =>
      rw [hr] at h
      simp only [] at h
      split at h
      · cases h
        simp
      · exact Option.noConfusion h

/-! Concrete traces used to evaluate the assembler. -/

/-- Location store for the two-alloc trace: location 0 declares a
destination descriptor for slot 5, location 1 declares a matching source
descriptor. -/
def locsTwoAlloc : LocMap :=
  [(0, ⟨77, 2, 3, ⟨none, some ⟨5, []⟩, TransferKind.none⟩⟩),
   (1, ⟨77, 2, 4, ⟨some ⟨5, []⟩, none, TransferKind.none⟩⟩)]

/-- Trace of two Alloc events; the second one's location declares a source
descriptor matching the first one's destination. -/
def eventsTwoAlloc : List Event :=
  [⟨0, EventKind.alloc 1⟩, ⟨1, EventKind.alloc 2⟩]

/-- Trace of an Alloc followed by a CopyPtr of the same pointer, whose
location declares a source descriptor matching the Alloc's destination. -/
def eventsAllocCopy : List Event :=
  [⟨0, EventKind.alloc 16⟩, ⟨1, EventKind.copyPtr 16⟩]

/-- A one-graph state: graph 0 holds a single Malloc node with a
whole-object destination for slot 5, and the latest-assignment table maps
(function 77, slot 5) to that node. -/
def oneMallocState : Graphs :=
  ⟨[⟨[⟨77, 2, 3, NodeKind.malloc 1, none, some ⟨5, []⟩⟩]⟩],
   [((77, 5), (0, 0))]⟩

/-- C1: the claim says nodes produced from Alloc-kind events always have
`source = none` and chaining kinds carry the resolved candidate.  The code
does the opposite: `EventKindExt::parent` returns `Some(obj)` exactly when
`has_parent()` is false, so on the two-alloc trace the second Alloc's node
carries `source = some 0`. -/
theorem alloc_node_carries_source_eval :
    (construct_pdg locsTwoAlloc eventsTwoAlloc).toOption.map
      (fun G => G.graphs.map (fun g => g.nodes.map
        (fun n => (n.kind, n.source))))
    = some [[(NodeKind.malloc 1, none), (NodeKind.malloc 1, some 0)]] := by
  rfl

/-- C2: the claim says the CopyPtr node attaches to the Alloc's graph with
`source` = the Alloc node's index.  Because `parent` filters out every
chaining kind, the code instead places the Copy node alone in a fresh
second graph with `source = none`. -/
theorem copy_node_detached_eval :
    (construct_pdg locsTwoAlloc eventsAllocCopy).toOption.map
      (fun G => G.graphs.map (fun g => g.nodes.map
        (fun n => (n.kind, n.source))))
    = some [[(NodeKind.malloc 1, none)], [(NodeKind.copy, none)]] := by
  rfl

/-- C3 counterexample: an event whose location reference is absent from the
backing store is not skipped; the assembler aborts (the `unwrap` panics),
so the whole run fails instead of continuing. -/
theorem missing_loc_aborts_eval :
    construct_pdg ([] : LocMap) [⟨0, EventKind.copyPtr 1⟩]
      = Except.error (r"called unwrap on a None value in mir loc get") := by
  rfl

/-- C3 amended: for every event whose kind maps to a node kind and whose
location reference is absent from the backing store, `add_node` panics at
the location `unwrap` rather than skipping the event. -/
theorem missing_loc_panics (locs : LocMap) (graphs : Graphs)
    (provenances : Prov) (event : Event) (nk : NodeKind)
    (hk : event.kind.to_node_kind = some nk)
    (hl : alookup locs event.mir_loc = none) :
    add_node locs graphs provenances event
      = Except.error (r"called unwrap on a None value in mir loc get") := by
  unfold add_node
  rw [hk, hl]

theorem missing_loc_panics_witness :
    add_node ([] : LocMap) ⟨[], []⟩ [] ⟨0, EventKind.copyPtr 1⟩
      = Except.error (r"called unwrap on a None value in mir loc get") :=
  missing_loc_panics [] ⟨[], []⟩ [] ⟨0, EventKind.copyPtr 1⟩ NodeKind.copy
    rfl rfl

/-- C6 counterexample: with a declared source descriptor of non-empty
projection, an existing latest-assignment entry for its slot, and a target
graph whose most recent node is not a Field node, the code resolves the
candidate to `head` (here `none`) for a non-Field event kind — not to the
latest-assignment entry as the claim states; and with no source descriptor
declared at all, `head` is not used as a fallback either. -/
theorem source_precedence_counterexample :
    compute_source oneMallocState
        ⟨some ⟨5, [0]⟩, none, TransferKind.none⟩ (EventKind.storeValue 9) 77
        none none
      = Except.ok none
    ∧ compute_source oneMallocState
        ⟨none, none, TransferKind.none⟩ (EventKind.storeValue 9) 77
        (some (0, 0)) none
      = Except.ok none
    ∧ alookup oneMallocState.latest_assignment (77, 5) = some (0, 0) :=
  ⟨rfl, rfl, rfl⟩

/-- C7: Ret and Done events produce no node and leave the graph arena, the
latest-assignment table and the provenance table exactly as they were. -/
theorem ret_done_no_effect (locs : LocMap) (graphs : Graphs)
    (provenances : Prov) (event : Event)
    (h : (∃ p, event.kind = EventKind.ret p) ∨ event.kind = EventKind.done) :
    add_node locs graphs provenances event
      = Except.ok (graphs, provenances, none) := by
  unfold add_node
  rcases h with ⟨p, hp⟩ | hd
  · rw [hp]
    rfl
  · rw [hd]
    rfl

theorem ret_done_no_effect_witness :
    add_node ([] : LocMap) ⟨[], []⟩ [] ⟨0, EventKind.done⟩
      = Except.ok (⟨[], []⟩, [], none) :=
  ret_done_no_effect [] ⟨[], []⟩ [] ⟨0, EventKind.done⟩ (Or.inr rfl)

/-- Inversion of a successful `add_node` run: either the event kind maps to
no node kind and the state is untouched, or every stage succeeded and the
output is the pushed node together with the two table updates. -/
theorem add_node_ok_inv (locs : LocMap) (G : Graphs) (prov : Prov) (e : Event)
    (out : Graphs × Prov × Option Nat)
    (hok : add_node locs G prov e = Except.ok out) :
    (e.kind.to_node_kind = none ∧ out = (G, prov, none)) ∨
    ∃ nk loc ptr source graph_id gs1 g prov2 la2,
      e.kind.to_node_kind = some nk ∧
      alookup locs e.mir_loc = some loc ∧
      compute_ptr G loc.metadata (compute_head prov e.kind loc.metadata)
        = Except.ok ptr ∧
      compute_source G loc.metadata e.kind (src_fn loc)
        (compute_head prov e.kind loc.metadata) ptr = Except.ok source ∧
      (match graph_choice e.kind source ptr
          (compute_head prov e.kind loc.metadata) with
        | some q => gs1 = G.graphs ∧ graph_id = q.1
        | none => gs1 = G.graphs ++ [Graph.mk []]
            ∧ graph_id = G.graphs.length) ∧
      gs1[graph_id]? = some g ∧
      update_provenance prov e.kind loc.metadata (graph_id, g.nodes.length)
        = Except.ok prov2 ∧
      update_latest_assignment
        (gs1.set graph_id (Graph.mk
          (g.nodes ++ [the_node e loc nk source])))
        G.latest_assignment (dest_fn loc) loc.metadata.destination graph_id
        g.nodes.length = Except.ok la2 ∧
      out = (⟨gs1.set graph_id (Graph.mk
          (g.nodes ++ [the_node e loc nk source])), la2⟩,
        prov2, some g.nodes.length) := by
  unfold add_node at hok
  cases hk : e.kind.to_node_kind with
  | none =>
    rw [hk] at hok
    simp only [] at hok
    left
    refine ⟨rfl, ?_⟩
    injection hok with h
    exact h.symm
  | some nk =>
    rw [hk] at hok
    simp only [] at hok
    cases hl : alookup locs e.mir_loc with
    | none =>
      rw [hl] at hok
      simp only [] at hok
      exact absurd hok (by simp)
    | some loc =>
      rw [hl] at hok
      simp only [] at hok
      right
      unfold add_node_with_head at hok
      cases hp : compute_ptr G loc.metadata
          (compute_head prov e.kind loc.metadata) with
      | error m =>
        rw [hp] at hok
        simp only [] at hok
        exact absurd hok (by simp)
      | ok ptr =>
        rw [hp] at hok
        simp only [] at hok
        cases hs : compute_source G loc.metadata e.kind (src_fn loc)
            (compute_head prov e.kind loc.metadata) ptr with
        | error m =>
          rw [hs] at hok
          simp only [] at hok
          exact absurd hok (by simp)
        | ok source =>
          rw [hs] at hok
          simp only [] at hok
          unfold add_node_insert at hok
          cases hgc : graph_choice e.kind source ptr
              (compute_head prov e.kind loc.metadata) with
          | some q =>
            rw [hgc] at hok
            simp only [] at hok
            unfold add_node_push at hok
            cases hg : G.graphs[q.1]? with
            | none =>
              rw [hg] at hok
              simp only [] at hok
              exact absurd hok (by simp)
            | some g =>
              rw [hg] at hok
              simp only [] at hok
              unfold add_node_finish at hok
              cases hup : update_provenance prov e.kind loc.metadata
                  (q.1, g.nodes.length) with
              | error m =>
                rw [hup] at hok
                simp only [] at hok
                exact absurd hok (by simp)
              | ok prov2 =>
                rw [hup] at hok
                simp only [] at hok
                cases hla : update_latest_assignment
                    (G.graphs.set q.1 (Graph.mk
                      (g.nodes ++ [the_node e loc nk source])))
                    G.latest_assignment (dest_fn loc)
                    loc.metadata.destination q.1 g.nodes.length with
                | error m =>
                  rw [hla] at hok
                  simp only [] at hok
                  exact absurd hok (by simp)
                | ok la2 =>
                  rw [hla] at hok
                  simp only [] at hok
                  refine ⟨nk, loc, ptr, source, q.1, G.graphs, g, prov2,
                    la2, rfl, rfl, hp, hs, ?_, hg, hup, hla, ?_⟩
                  · rw [hgc]
                    exact ⟨rfl, rfl⟩
                  · injection hok with h
                    exact h.symm
          | none =>
            rw [hgc] at hok
            simp only [] at hok
            unfold add_node_push at hok
            cases hg : (G.graphs ++ [Graph.mk []])[G.graphs.length]? with
            | none =>
              rw [hg] at hok
              simp only [] at hok
              exact absurd hok (by simp)
            | some g =>
              rw [hg] at hok
              simp only [] at hok
              unfold add_node_finish at hok
              cases hup : update_provenance prov e.kind loc.metadata
                  (G.graphs.length, g.nodes.length) with
              | error m =>
                rw [hup] at hok
                simp only [] at hok
                exact absurd hok (by simp)
              | ok prov2 =>
                rw [hup] at hok
                simp only [] at hok
                cases hla : update_latest_assignment
                    ((G.graphs ++ [Graph.mk []]).set G.graphs.length
                      (Graph.mk (g.nodes ++ [the_node e loc nk source])))
                    G.latest_assignment (dest_fn loc)
                    loc.metadata.destination G.graphs.length
                    g.nodes.length with
                | error m =>
                  rw [hla] at hok
                  simp only [] at hok
                  exact absurd hok (by simp)
                | ok la2 =>
                  rw [hla] at hok
                  simp only [] at hok
                  refine ⟨nk, loc, ptr, source, G.graphs.length,
                    G.graphs ++ [Graph.mk []], g, prov2, la2, rfl, rfl,
                    hp, hs, ?_, hg, hup, hla, ?_⟩
                  · rw [hgc]
                    exact ⟨rfl, rfl⟩
                  · injection hok with h
                    exact h.symm

/-- C4: if pointer P already has a provenance entry, processing a
CopyPtr(P) event leaves that entry unchanged (the `try_insert` fails and
the state keeps the existing binding). -/
theorem copyptr_keeps_existing_provenance (locs : LocMap) (G : Graphs)
    (prov : Prov) (e : Event) (P : Pointer) (v : Nat × Nat)
    (out : Graphs × Prov × Option Nat)
    (hk : e.kind = EventKind.copyPtr P)
    (hv : alookup prov P = some v)
    (hok : add_node locs G prov e = Except.ok out) :
    alookup out.2.1 P = some v := by
  rcases add_node_ok_inv locs G prov e out hok with ⟨_, h2⟩ |
    ⟨nk, loc, ptr, source, gid, gs1, g, prov2, la2, _, _, _, _, _, _,
      hup, _, hout⟩
  · rw [h2]
    exact hv
  · rw [hout]
    rw [hk] at hup
    simp only [update_provenance, hv, Option.isSome_some, if_true] at hup
    injection hup with h
    rw [← h]
    exact hv

theorem copyptr_keeps_existing_provenance_witness :
    alookup ([(16, ((0 : Nat), (0 : Nat)))] : Prov) 16 = some (0, 0) :=
  copyptr_keeps_existing_provenance locsTwoAlloc oneMallocState
    [(16, (0, 0))] ⟨1, EventKind.copyPtr 16⟩ 16 (0, 0)
    (⟨[⟨[⟨77, 2, 3, NodeKind.malloc 1, none, some ⟨5, []⟩⟩]⟩,
       ⟨[⟨77, 2, 4, NodeKind.copy, none, none⟩]⟩], [((77, 5), (0, 0))]⟩,
     [(16, (0, 0))], some 0)
    rfl rfl rfl

/-- C10: a CopyRef event whose metadata carries no destination descriptor
makes the provenance update panic (the unconditional `unwrap`); and every
CopyRef event that does carry a destination binds the destination's local
slot as a key in the provenance table. -/
theorem copyref_unwrap_and_binding :
    (add_node [(0, ⟨77, 2, 3, ⟨none, none, TransferKind.none⟩⟩)] ⟨[], []⟩ []
        ⟨0, EventKind.copyRef⟩
      = Except.error (r"called unwrap on a None destination in CopyRef"))
    ∧ ∀ (locs : LocMap) (G : Graphs) (prov : Prov) (e : Event)
        (loc : MirLoc) (d : MirPlace) (out : Graphs × Prov × Option Nat),
        e.kind = EventKind.copyRef →
        alookup locs e.mir_loc = some loc →
        loc.metadata.destination = some d →
        add_node locs G prov e = Except.ok out →
        (alookup out.2.1 d.localVar).isSome := by
  constructor
  · rfl
  · intro locs G prov e loc d out hk hloc hd hok
    rcases add_node_ok_inv locs G prov e out hok with ⟨h1, _⟩ |
      ⟨nk, loc', ptr, source, gid, gs1, g, prov2, la2, _, hl, _, _, _, _,
        hup, _, hout⟩
    · rw [hk] at h1
      exact absurd h1 (by simp [EventKind.to_node_kind])
    · have hle : loc' = loc := by
        rw [hl] at hloc
        injection hloc
      subst hle
      rw [hout]
      rw [hk] at hup
      simp only [update_provenance, hd] at hup
      injection hup with h
      rw [← h]
      rw [alookup_ainsert_self]
      rfl

theorem copyref_unwrap_and_binding_witness :
    (alookup ([(3, ((0 : Nat), (0 : Nat)))] : Prov) 3).isSome :=
  copyref_unwrap_and_binding.2
    [(0, ⟨77, 2, 3, ⟨none, some ⟨3, []⟩, TransferKind.none⟩⟩)] ⟨[], []⟩ []
    ⟨0, EventKind.copyRef⟩ ⟨77, 2, 3, ⟨none, some ⟨3, []⟩, TransferKind.none⟩⟩
    ⟨3, []⟩
    (⟨[⟨[⟨77, 2, 3, NodeKind.copy, none, some ⟨3, []⟩⟩]⟩],
      [((77, 3), (0, 0))]⟩, [(3, (0, 0))], some 0)
    rfl rfl rfl rfl

/-- C8: when the transfer hint is Arg(target), the node built for the event
has function identity `target` and both its block and statement indices
forced to 0. -/
theorem arg_transfer_node_fields (locs : LocMap) (G : Graphs) (prov : Prov)
    (e : Event) (loc : MirLoc) (t : Fn) (G' : Graphs) (prov' : Prov)
    (nid : Nat)
    (hloc : alookup locs e.mir_loc = some loc)
    (ht : loc.metadata.transfer_kind = TransferKind.arg t)
    (hok : add_node locs G prov e = Except.ok (G', prov', some nid)) :
    ∃ (gid : Nat) (g : Graph) (n : Node),
      G'.graphs[gid]? = some g ∧ g.nodes[nid]? = some n ∧
      n.function = t ∧ n.block = 0 ∧ n.index = 0 := by
  rcases add_node_ok_inv locs G prov e (G', prov', some nid) hok with
    ⟨_, h2⟩ |
    ⟨nk, loc', ptr, source, gid, gs1, g, prov2, la2, _, hl, _, _, _, hg,
      _, _, hout⟩
  · simp at h2
  · have hle : loc' = loc := by
      rw [hl] at hloc
      injection hloc
    subst hle
    have hG : G' = ⟨gs1.set gid (Graph.mk
        (g.nodes ++ [the_node e loc' nk source])), la2⟩ :=
      congrArg Prod.fst hout
    have hnid : nid = g.nodes.length := by
      have h := congrArg (fun p => p.2.2) hout
      simpa using h
    refine ⟨gid, Graph.mk (g.nodes ++ [the_node e loc' nk source]),
      the_node e loc' nk source, ?_, ?_, ?_, ?_, ?_⟩
    · rw [hG]
      have hlt : gid < gs1.length := (List.getElem?_eq_some.mp hg).1
      exact List.getElem?_set_eq_of_lt _ hlt
    · rw [hnid]
      simp
    · simp [the_node, dest_fn, fn_pair, ht]
    · simp [the_node, block_idx, ht]
    · simp [the_node, stmt_idx, ht]

theorem arg_transfer_node_fields_witness :
    ∃ (gid : Nat) (g : Graph) (n : Node),
      (⟨[⟨[⟨9, 0, 0, NodeKind.copy, none, none⟩]⟩], []⟩ :
        Graphs).graphs[gid]? = some g ∧ g.nodes[(0 : Nat)]? = some n ∧
      n.function = 9 ∧ n.block = 0 ∧ n.index = 0 :=
  arg_transfer_node_fields
    [(0, ⟨77, 2, 3, ⟨none, none, TransferKind.arg 9⟩⟩)] ⟨[], []⟩ []
    ⟨0, EventKind.copyPtr 4⟩ ⟨77, 2, 3, ⟨none, none, TransferKind.arg 9⟩⟩ 9
    ⟨[⟨[⟨9, 0, 0, NodeKind.copy, none, none⟩]⟩], []⟩ [(4, (0, 0))] 0
    rfl rfl rfl

/-- C5: if the latest-assignment entry for (destination function, slot S)
points at an existing node whose destination descriptor has an empty
projection path (a whole-object write), then processing an event that
writes a non-empty projection of S (a field write) restores that entry:
afterwards it still refers to the whole-object write's node. -/
theorem whole_object_precedence (locs : LocMap) (G : Graphs) (prov : Prov)
    (e : Event) (loc : MirLoc) (d : MirPlace) (lg ln : Nat) (g0 : Graph)
    (n0 : Node) (d0 : MirPlace) (out : Graphs × Prov × Option Nat)
    (hloc : alookup locs e.mir_loc = some loc)
    (hdest : loc.metadata.destination = some d)
    (hproj : d.projection.isEmpty = false)
    (hla : alookup G.latest_assignment (dest_fn loc, d.localVar)
      = some (lg, ln))
    (hg0 : G.graphs[lg]? = some g0)
    (hn0 : g0.nodes[ln]? = some n0)
    (hnd : n0.dest = some d0)
    (hnde : d0.projection.isEmpty = true)
    (hok : add_node locs G prov e = Except.ok out) :
    alookup out.1.latest_assignment (dest_fn loc, d.localVar)
      = some (lg, ln) := by
  rcases add_node_ok_inv locs G prov e out hok with ⟨_, h2⟩ |
    ⟨nk, loc', ptr, source, gid, gs1, g, prov2, la2, _, hl, _, _, hch, hg,
      _, hup, hout⟩
  · rw [h2]
    exact hla
  · have hle : loc' = loc := by
      rw [hl] at hloc
      injection hloc
    subst hle
    have hlt : lg < G.graphs.length := (List.getElem?_eq_some.mp hg0).1
    have hlngt : ln < g0.nodes.length := (List.getElem?_eq_some.mp hn0).1
    have hgs1 : gs1[lg]? = some g0 := by
      rcases hgc : graph_choice e.kind source ptr
          (compute_head prov e.kind loc'.metadata) with _ | q
      · rw [hgc] at hch
        obtain ⟨h1, _⟩ := hch
        rw [h1, List.getElem?_append_left hlt]
        exact hg0
      · rw [hgc] at hch
        obtain ⟨h1, _⟩ := hch
        rw [h1]
        exact hg0
    have hnode : ∀ gg, (gs1.set gid (Graph.mk
        (g.nodes ++ [the_node e loc' nk source])))[lg]? = some gg →
        gg.nodes[ln]? = some n0 := by
      intro gg hgg
      by_cases hlg : gid = lg
      · subst hlg
        rw [hgs1] at hg
        injection hg with hgeq
        subst hgeq
        have hlt1 : gid < gs1.length := (List.getElem?_eq_some.mp hgs1).1
        rw [List.getElem?_set_eq_of_lt _ hlt1] at hgg
        injection hgg with hggeq
        subst hggeq
        rw [List.getElem?_append_left hlngt]
        exact hn0
      · rw [List.getElem?_set_ne hlg] at hgg
        rw [hgs1] at hgg
        injection hgg with hggeq
        subst hggeq
        exact hn0
    rw [hout]
    show alookup la2 (dest_fn loc', d.localVar) = some (lg, ln)
    unfold update_latest_assignment at hup
    rw [hdest] at hup
    simp only [] at hup
    rw [hla] at hup
    simp only [] at hup
    rw [hproj] at hup
    simp only [Bool.false_eq_true, if_false] at hup
    cases hgg : (gs1.set gid (Graph.mk
        (g.nodes ++ [the_node e loc' nk source])))[lg]? with
    | none =>
      rcases hx : (gs1.set gid (Graph.mk
          (g.nodes ++ [the_node e loc' nk source])))[lg]? with _ | gg
      · rw [hx] at hup
        simp only [] at hup
        exact absurd hup (by simp)
      · have := hnode gg hx
        rw [hx] at hgg
        exact absurd hgg (by simp)
    | some gg =>
      have hggn := hnode gg hgg
      rw [hgg] at hup
      simp only [] at hup
      rw [hggn] at hup
      simp only [] at hup
      rw [hnd] at hup
      simp only [] at hup
      rw [hnde] at hup
      simp only [if_true] at hup
      injection hup with h
      rw [← h]
      exact alookup_ainsert_self _ _ _

theorem whole_object_precedence_witness :
    alookup ([((77, 5), ((0 : Nat), (0 : Nat))), ((77, 5), (1, 0)),
      ((77, 5), (0, 0))] : LAMap) (77, 5) = some (0, 0) :=
  whole_object_precedence
    [(1, ⟨77, 2, 4, ⟨none, some ⟨5, [0]⟩, TransferKind.none⟩⟩)]
    oneMallocState [(16, (0, 0))] ⟨1, EventKind.storeAddr 16⟩
    ⟨77, 2, 4, ⟨none, some ⟨5, [0]⟩, TransferKind.none⟩⟩ ⟨5, [0]⟩ 0 0
    ⟨[⟨77, 2, 3, NodeKind.malloc 1, none, some ⟨5, []⟩⟩]⟩
    ⟨77, 2, 3, NodeKind.malloc 1, none, some ⟨5, []⟩⟩ ⟨5, []⟩
    (⟨[⟨[⟨77, 2, 3, NodeKind.malloc 1, none, some ⟨5, []⟩⟩]⟩,
       ⟨[⟨77, 2, 4, NodeKind.storeAddr, none, some ⟨5, [0]⟩⟩]⟩],
      [((77, 5), (0, 0)), ((77, 5), (1, 0)), ((77, 5), (0, 0))]⟩,
     [(16, (0, 0))], some 0)
    rfl rfl rfl rfl rfl rfl rfl rfl rfl

/-- C6 amended: the precedence actually implemented for the `source`
candidate.  (a) `ptr` wins when present; (b) with a declared source
descriptor: an empty projection path uses the latest-assignment entry; a
non-empty projection path uses the trailing Field node when the
latest-assignment target graph ends in one, otherwise the
latest-assignment entry only when the event's own kind is Field, and the
raw provenance hit `head` for every other kind; (c) with no declared
source descriptor there is no candidate at all — `head` is not used as a
final fallback. -/
theorem source_precedence_characterization (graphs : Graphs)
    (metadata : EventMetadata) (event_kind : EventKind) (sfn : Fn)
    (head ptr s : Option (Nat × Nat))
    (h : compute_source graphs metadata event_kind sfn head ptr
      = Except.ok s) :
    (∀ p, ptr = some p → s = some p)
    ∧ (ptr = none → metadata.source = none → s = none)
    ∧ (∀ src, ptr = none → metadata.source = some src →
        src.projection.isEmpty = true →
        s = alookup graphs.latest_assignment (sfn, src.localVar))
    ∧ (∀ src gid r g n i, ptr = none → metadata.source = some src →
        src.projection.isEmpty = false →
        alookup graphs.latest_assignment (sfn, src.localVar)
          = some (gid, r) →
        graphs.graphs[gid]? = some g → g.nodes.getLast? = some n →
        n.kind = NodeKind.field i →
        s = some (gid, g.nodes.length - 1))
    ∧ (∀ src gid r g n, ptr = none → metadata.source = some src →
        src.projection.isEmpty = false →
        alookup graphs.latest_assignment (sfn, src.localVar)
          = some (gid, r) →
        graphs.graphs[gid]? = some g → g.nodes.getLast? = some n →
        (∀ i, n.kind ≠ NodeKind.field i) →
        (match event_kind with
          | EventKind.field _ _ =>
            s = alookup graphs.latest_assignment (sfn, src.localVar)
          | _ => s = head))
    ∧ (∀ src, ptr = none → metadata.source = some src →
        src.projection.isEmpty = false →
        alookup graphs.latest_assignment (sfn, src.localVar) = none →
        (match event_kind with
          | EventKind.field _ _ => s = none
          | _ => s = head)) := by
  refine ⟨?_, ?_, ?_, ?_, ?_, ?_⟩
  · intro p hp
    rw [hp] at h
    unfold compute_source at h
    simp only [] at h
    injection h with h
    exact h.symm
  · intro hp hsrc
    rw [hp] at h
    unfold compute_source at h
    simp only [] at h
    rw [hsrc] at h
    simp only [] at h
    injection h with h
    exact h.symm
  · intro src hp hsrc hproj
    rw [hp] at h
    unfold compute_source at h
    simp only [] at h
    rw [hsrc] at h
    simp only [] at h
    unfold field_scan at h
    rw [hproj] at h
    simp only [if_true] at h
    injection h with h
    exact h.symm
  · intro src gid r g n i hp hsrc hproj hla hg hn hk
    rw [hp] at h
    unfold compute_source at h
    simp only [] at h
    rw [hsrc] at h
    simp only [] at h
    unfold field_scan at h
    rw [hproj] at h
    simp only [Bool.false_eq_true, if_false] at h
    rw [hla] at h
    simp only [] at h
    rw [hg] at h
    simp only [] at h
    rw [hn] at h
    simp only [] at h
    rw [hk] at h
    simp only [] at h
    injection h with h
    exact h.symm
  · intro src gid r g n hp hsrc hproj hla hg hn hk
    rw [hp] at h
    unfold compute_source at h
    simp only [] at h
    rw [hsrc] at h
    simp only [] at h
    unfold field_scan at h
    rw [hproj] at h
    simp only [Bool.false_eq_true, if_false] at h
    rw [hla] at h
    simp only [] at h
    rw [hg] at h
    simp only [] at h
    rw [hn] at h
    simp only [] at h
    cases hnk : n.kind with
    | field j => exact absurd hnk (hk j)
    | _ =>
      cases event_kind <;> simp only [] at h <;>
        first
        | (injection h with h; exact h.symm)
        | (injection h with h; rw [hla]; exact h.symm)
  · intro src hp hsrc hproj hla
    rw [hp] at h
    unfold compute_source at h
    simp only [] at h
    rw [hsrc] at h
    simp only [] at h
    unfold field_scan at h
    rw [hproj] at h
    simp only [Bool.false_eq_true, if_false] at h
    rw [hla] at h
    simp only [] at h
    cases event_kind <;> simp only [] at h <;>
      (injection h with h; exact h.symm)

theorem source_precedence_characterization_witness :
    (some ((0 : Nat), (0 : Nat)) : Option (Nat × Nat)) = some (0, 0) :=
  ((source_precedence_characterization oneMallocState
      ⟨some ⟨5, []⟩, none, TransferKind.none⟩ (EventKind.storeValue 9) 77
      none none (some (0, 0)) rfl).2.2.1 ⟨5, []⟩ rfl rfl rfl).trans rfl

/-! Invariant infrastructure for the source-edge claim: every (graph id,
node id) reference held by the trackers is in bounds, and every node's
`source` points strictly backwards inside its own graph. -/

/-- A (graph id, node id) pair that refers to an existing node. -/
abbrev ValidRef (gs : List Graph) (r : Nat × Nat) : Prop :=
  ∃ g : Graph, gs[r.1]? = some g ∧ r.2 < g.nodes.length

/-- All values of a tracker map are valid references. -/
abbrev MapWF {K : Type} (gs : List Graph) (m : List (K × (Nat × Nat))) :
    Prop :=
  ∀ p ∈ m, ValidRef gs p.2

/-- Every node's `source`, when set, is the index of an earlier node of the
same graph. -/
abbrev GraphsOK (gs : List Graph) : Prop :=
  ∀ (gid : Nat) (g : Graph), gs[gid]? = some g →
    ∀ (i : Nat) (n : Node), g.nodes[i]? = some n →
      ∀ nid : Nat, n.source = some nid → nid < i

/-- The assembly-state invariant. -/
abbrev WF (G : Graphs) (prov : Prov) : Prop :=
  MapWF G.graphs prov ∧ MapWF G.graphs G.latest_assignment
    ∧ GraphsOK G.graphs

/-- `gs'` extends `gs`: every graph is still present with at least its old
nodes, unchanged at their old indices. -/
abbrev Ext (gs gs' : List Graph) : Prop :=
  ∀ (gid : Nat) (g : Graph), gs[gid]? = some g →
    ∃ g' : Graph, gs'[gid]? = some g' ∧
      g.nodes.length ≤ g'.nodes.length ∧
      ∀ i : Nat, i < g.nodes.length → g'.nodes[i]? = g.nodes[i]?

theorem ext_validRef {gs gs' : List Graph} {r : Nat × Nat}
    (hext : Ext gs gs') (h : ValidRef gs r) : ValidRef gs' r := by
  obtain ⟨g, hg, hlt⟩ := h
  obtain ⟨g', hg', hle, _⟩ := hext _ _ hg
  exact ⟨g', hg', Nat.lt_of_lt_of_le hlt hle⟩

theorem ext_push (gs gs1 : List Graph) (graph_id : Nat) (g : Graph)
    (node : Node)
    (hgs1 : gs1 = gs ∨ gs1 = gs ++ [Graph.mk []])
    (hg : gs1[graph_id]? = some g) :
    Ext gs (gs1.set graph_id (Graph.mk (g.nodes ++ [node]))) := by
  intro gid g0 hg0
  have hlt0 : gid < gs.length := (List.getElem?_eq_some.mp hg0).1
  by_cases hgid : graph_id = gid
  · subst hgid
    have hgg : g = g0 := by
      rcases hgs1 with h1 | h1
      · rw [h1] at hg
        rw [hg0] at hg
        injection hg with hgg
        exact hgg.symm
      · rw [h1, List.getElem?_append_left hlt0] at hg
        rw [hg0] at hg
        injection hg with hgg
        exact hgg.symm
    subst hgg
    have hlt1 : graph_id < gs1.length := (List.getElem?_eq_some.mp hg).1
    refine ⟨Graph.mk (g.nodes ++ [node]),
      List.getElem?_set_eq_of_lt _ hlt1, by simp, ?_⟩
    intro i hi
    simp only []
    rw [List.getElem?_append_left hi]
  · rw [List.getElem?_set_ne hgid]
    refine ⟨g0, ?_, Nat.le_refl _, fun i _ => rfl⟩
    rcases hgs1 with h1 | h1
    · rw [h1]
      exact hg0
    · rw [h1, List.getElem?_append_left hlt0]
      exact hg0

theorem mapWF_extend {K : Type} (gs gs' : List Graph)
    (m m' : List (K × (Nat × Nat)))
    (hext : Ext gs gs') (hm : MapWF gs m)
    (hnew : ∀ p ∈ m', p ∈ m ∨ ValidRef gs' p.2) : MapWF gs' m' := by
  intro p hp
  rcases hnew p hp with hmem | hv
  · exact ext_validRef hext (hm p hmem)
  · exact hv

theorem update_provenance_mem (prov : Prov) (k : EventKind)
    (md : EventMetadata) (mp : Nat × Nat) (prov2 : Prov)
    (h : update_provenance prov k md mp = Except.ok prov2) :
    ∀ p ∈ prov2, p ∈ prov ∨ p.2 = mp := by
  intro p hp
  cases k <;> simp only [update_provenance] at h
  case alloc =>
    injection h with h
    rw [← h] at hp
    rcases List.mem_cons.mp hp with h1 | h1
    · right; rw [h1]
    · left; exact h1
  case copyPtr P =>
    injection h with h
    rw [← h] at hp
    split at hp
    · left; exact hp
    · rcases List.mem_cons.mp hp with h1 | h1
      · right; rw [h1]
      · left; exact h1
  case realloc =>
    injection h with h
    rw [← h] at hp
    rcases List.mem_cons.mp hp with h1 | h1
    · right; rw [h1]
    · left; exact h1
  case offset =>
    injection h with h
    rw [← h] at hp
    rcases List.mem_cons.mp hp with h1 | h1
    · right; rw [h1]
    · left; exact h1
  case copyRef =>
    cases hd : md.destination with
    | none => rw [hd] at h; exact absurd h (by simp)
    | some d =>
      rw [hd] at h
      simp only [] at h
      injection h with h
      rw [← h] at hp
      rcases List.mem_cons.mp hp with h1 | h1
      · right; rw [h1]
      · left; exact h1
  case addrOfLocal =>
    injection h with h
    rw [← h] at hp
    rcases List.mem_cons.mp hp with h1 | h1
    · right; rw [h1]
    · left; exact h1
  all_goals
    (injection h with h; rw [← h] at hp; left; exact hp)

theorem update_latest_assignment_mem (gs2 : List Graph) (la : LAMap)
    (dfn : Fn) (dst : Option MirPlace) (graph_id node_id : Nat) (la2 : LAMap)
    (h : update_latest_assignment gs2 la dfn dst graph_id node_id
      = Except.ok la2) :
    ∀ p ∈ la2, p ∈ la ∨ p.2 = (graph_id, node_id) := by
  intro p hp
  unfold update_latest_assignment at h
  cases hd : dst with
  | none =>
    rw [hd] at h
    simp only [] at h
    injection h with h
    rw [← h] at hp
    left
    exact hp
  | some dest =>
    rw [hd] at h
    simp only [] at h
    cases hlk : alookup la (dfn, dest.localVar) with
    | none =>
      rw [hlk] at h
      simp only [] at h
      injection h with h
      rw [← h] at hp
      rcases List.mem_cons.mp hp with h1 | h1
      · right; rw [h1]
      · left; exact h1
    | some q =>
      obtain ⟨lg, ln⟩ := q
      rw [hlk] at h
      simp only [] at h
      split at h
      · injection h with h
        rw [← h] at hp
        rcases List.mem_cons.mp hp with h1 | h1
        · right; rw [h1]
        · left; exact h1
      · cases hgg : gs2[lg]? with
        | none => rw [hgg] at h; exact absurd h (by simp)
        | some lgraph =>
          rw [hgg] at h
          simp only [] at h
          cases hln : lgraph.nodes[ln]? with
          | none => rw [hln] at h; exact absurd h (by simp)
          | some lnode =>
            rw [hln] at h
            simp only [] at h
            cases hldst : lnode.dest with
            | none => rw [hldst] at h; exact absurd h (by simp)
            | some ld =>
              rw [hldst] at h
              simp only [] at h
              split at h
              · injection h with h
                rw [← h] at hp
                rcases List.mem_cons.mp hp with h1 | h1
                · left
                  rw [h1]
                  exact alookup_mem hlk
                · rcases List.mem_cons.mp h1 with h2 | h2
                  · right; rw [h2]
                  · left; exact h2
              · injection h with h
                rw [← h] at hp
                rcases List.mem_cons.mp hp with h1 | h1
                · right; rw [h1]
                · left; exact h1

theorem compute_head_valid (gs : List Graph) (prov : Prov) (k : EventKind)
    (md : EventMetadata) (hd : Nat × Nat) (hwf : MapWF gs prov)
    (h : compute_head prov k md = some hd) : ValidRef gs hd := by
  unfold compute_head at h
  cases hp : k.ptr md with
  | none => rw [hp] at h; exact absurd h (by simp)
  | some P =>
    rw [hp] at h
    simp only [Option.some_bind] at h
    exact hwf _ (alookup_mem h)

theorem compute_ptr_valid (G : Graphs) (md : EventMetadata)
    (head : Option (Nat × Nat)) (p : Nat × Nat)
    (h : compute_ptr G md head = Except.ok (some p)) :
    ValidRef G.graphs p := by
  unfold compute_ptr at h
  cases head with
  | none => simp only [] at h; exact absurd h (by simp)
  | some q =>
    obtain ⟨gid, x⟩ := q
    simp only [] at h
    cases hg : G.graphs[gid]? with
    | none => rw [hg] at h; exact absurd h (by simp)
    | some g =>
      rw [hg] at h
      simp only [] at h
      injection h with h
      cases hr : rposition (fun n =>
          match n.dest, md.source with
          | some d, some s => decide (d = s)
          | _, _ => false) g.nodes with
      | none => rw [hr] at h; exact absurd h (by simp)
      | some nid =>
        rw [hr] at h
        simp only [Option.map_some', Option.some.injEq] at h
        rw [← h]
        exact ⟨g, hg, rposition_lt _ _ _ hr⟩

theorem field_scan_valid (G : Graphs) (src : MirPlace)
    (la : Option (Nat × Nat)) (p : Nat × Nat)
    (h : field_scan G src la = Except.ok (some p)) :
    ValidRef G.graphs p := by
  unfold field_scan at h
  split at h
  · exact absurd h (by simp)
  · cases la with
    | none => simp only [] at h; exact absurd h (by simp)
    | some q =>
      obtain ⟨gid, x⟩ := q
      simp only [] at h
      cases hg : G.graphs[gid]? with
      | none => rw [hg] at h; exact absurd h (by simp)
      | some g =>
        rw [hg] at h
        simp only [] at h
        cases hlast : g.nodes.getLast? with
        | none => rw [hlast] at h; exact absurd h (by simp)
        | some n =>
          rw [hlast] at h
          simp only [] at h
          cases hnk : n.kind <;> rw [hnk] at h <;> simp only [] at h
          all_goals try (exact absurd h (by
            intro hc
            injection hc with hc
            exact Option.noConfusion hc))
          injection h with h
          injection h with h
          rw [← h]
          refine ⟨g, hg, ?_⟩
          have hne : g.nodes ≠ [] := by
            intro hnil
            rw [hnil] at hlast
            exact absurd hlast (by simp)
          have hpos : 0 < g.nodes.length := List.length_pos.mpr hne
          exact Nat.sub_lt hpos Nat.one_pos

theorem compute_source_valid (G : Graphs) (md : EventMetadata)
    (k : EventKind) (sfn : Fn) (head ptr : Option (Nat × Nat)) (p : Nat × Nat)
    (hhead : ∀ q, head = some q → ValidRef G.graphs q)
    (hptr : ∀ q, ptr = some q → ValidRef G.graphs q)
    (hla : MapWF G.graphs G.latest_assignment)
    (h : compute_source G md k sfn head ptr = Except.ok (some p)) :
    ValidRef G.graphs p := by
  unfold compute_source at h
  cases ptr with
  | some q =>
    simp only [] at h
    injection h with h
    injection h with h
    rw [← h]
    exact hptr q rfl
  | none =>
    simp only [] at h
    cases hsrc : md.source with
    | none => rw [hsrc] at h; exact absurd h (by simp)
    | some src =>
      rw [hsrc] at h
      simp only [] at h
      cases hfs : field_scan G src
          (alookup G.latest_assignment (sfn, src.localVar)) with
      | error m => rw [hfs] at h; exact absurd h (by simp)
      | ok fsr =>
        rw [hfs] at h
        cases fsr with
        | some q =>
          simp only [] at h
          injection h with h
          injection h with h
          rw [← h]
          exact field_scan_valid G src _ q hfs
        | none =>
          simp only [] at h
          injection h with h
          split at h
          · exact hla _ (alookup_mem h)
          · cases k <;> simp only [] at h <;>
              first
              | exact hla _ (alookup_mem h)
              | exact hhead p h

theorem node_source_bound (e : Event) (loc : MirLoc) (nk : NodeKind)
    (source ptr head : Option (Nat × Nat)) (nid : Nat)
    (h : (the_node e loc nk source).source = some nid) :
    ∃ p, source = some p ∧ nid = p.2 ∧
      graph_choice e.kind source ptr head = some p := by
  simp only [the_node] at h
  cases source with
  | none => exact absurd h (by simp)
  | some p =>
    simp only [Option.some_bind] at h
    unfold EventKind.parent at h
    by_cases hpar : e.kind.has_parent
    · rw [if_pos hpar] at h
      exact absurd h (by simp)
    · rw [if_neg hpar] at h
      simp only [Option.map_some', Option.some.injEq] at h
      refine ⟨p, rfl, h.symm, ?_⟩
      simp only [graph_choice, ror, Option.some_bind]
      unfold EventKind.parent
      rw [if_neg hpar]

theorem add_node_wf (locs : LocMap) (G : Graphs) (prov : Prov) (e : Event)
    (out : Graphs × Prov × Option Nat)
    (hwf : WF G prov)
    (hok : add_node locs G prov e = Except.ok out) :
    WF out.1 out.2.1 := by
  obtain ⟨hprov, hlaw, hgok⟩ := hwf
  rcases add_node_ok_inv locs G prov e out hok with ⟨_, h2⟩ |
    ⟨nk, loc, ptr, source, gid, gs1, g, prov2, la2, hk, hl, hp, hs, hch,
      hg, hup, hlat, hout⟩
  · rw [h2]
    exact ⟨hprov, hlaw, hgok⟩
  · rw [hout]
    have hgs1 : gs1 = G.graphs ∨ gs1 = G.graphs ++ [Graph.mk []] := by
      rcases hgc : graph_choice e.kind source ptr
          (compute_head prov e.kind loc.metadata) with _ | q <;>
        rw [hgc] at hch
      · exact Or.inr hch.1
      · exact Or.inl hch.1
    have hext : Ext G.graphs (gs1.set gid (Graph.mk
        (g.nodes ++ [the_node e loc nk source]))) :=
      ext_push G.graphs gs1 gid g (the_node e loc nk source) hgs1 hg
    have hgid_lt : gid < gs1.length := (List.getElem?_eq_some.mp hg).1
    have hnewref : ValidRef (gs1.set gid (Graph.mk
        (g.nodes ++ [the_node e loc nk source]))) (gid, g.nodes.length) := by
      refine ⟨Graph.mk (g.nodes ++ [the_node e loc nk source]),
        List.getElem?_set_eq_of_lt _ hgid_lt, ?_⟩
      simp
    have hheadv : ∀ q, compute_head prov e.kind loc.metadata = some q →
        ValidRef G.graphs q := fun q hq =>
      compute_head_valid G.graphs prov e.kind loc.metadata q hprov hq
    have hptrv : ∀ q, ptr = some q → ValidRef G.graphs q := by
      intro q hq
      rw [hq] at hp
      exact compute_ptr_valid G loc.metadata _ q hp
    have hsv : ∀ q, source = some q → ValidRef G.graphs q := by
      intro q hq
      rw [hq] at hs
      exact compute_source_valid G loc.metadata e.kind (src_fn loc) _ ptr q
        hheadv hptrv hlaw hs
    refine ⟨?_, ?_, ?_⟩
    · refine mapWF_extend G.graphs _ prov prov2 hext hprov ?_
      intro p hp2
      rcases update_provenance_mem prov e.kind loc.metadata _ prov2 hup p
          hp2 with hm | hm
      · exact Or.inl hm
      · right
        rw [hm]
        exact hnewref
    · refine mapWF_extend G.graphs _ G.latest_assignment la2 hext hlaw ?_
      intro p hp2
      rcases update_latest_assignment_mem _ G.latest_assignment
          (dest_fn loc) loc.metadata.destination gid g.nodes.length la2
          hlat p hp2 with hm | hm
      · exact Or.inl hm
      · right
        rw [hm]
        exact hnewref
    · intro gid0 g0 hg0 i n hn nid hsrc
      by_cases hgi : gid = gid0
      · subst hgi
        rw [List.getElem?_set_eq_of_lt _ hgid_lt] at hg0
        injection hg0 with hg0
        rw [← hg0] at hn
        simp only [] at hn
        have hi : i < g.nodes.length + 1 := by
          have hx := (List.getElem?_eq_some.mp hn).1
          simpa using hx
        rcases Nat.lt_succ_iff_lt_or_eq.mp hi with hilt | hieq
        · rw [List.getElem?_append_left hilt] at hn
          rcases hgs1 with h1 | h1
          · rw [h1] at hg
            exact hgok gid g hg i n hn nid hsrc
          · rw [h1] at hg
            by_cases hgl : gid < G.graphs.length
            · rw [List.getElem?_append_left hgl] at hg
              exact hgok gid g hg i n hn nid hsrc
            · have hgid_lt1 : gid < G.graphs.length + 1 := by
                rw [h1] at hgid_lt
                simpa using hgid_lt
              have hgeq : gid = G.graphs.length := by omega
              rw [hgeq] at hg
              simp at hg
              rw [← hg] at hilt
              simp at hilt
        · subst hieq
          have hxn : (g.nodes ++ [the_node e loc nk source])[
              g.nodes.length]? = some (the_node e loc nk source) := by
            simp
          rw [hxn] at hn
          injection hn with hn
          rw [← hn] at hsrc
          obtain ⟨p, hps, hnid2, hgc⟩ := node_source_bound e loc nk source
            ptr (compute_head prov e.kind loc.metadata) nid hsrc
          rw [hgc] at hch
          simp only [] at hch
          obtain ⟨hch1, hch2⟩ := hch
          obtain ⟨gp, hgp, hplt⟩ := hsv p hps
          rw [hch1, hch2] at hg
          rw [hgp] at hg
          injection hg with hg
          rw [hnid2]
          rw [hg] at hplt
          exact hplt
      · rw [List.getElem?_set_ne hgi] at hg0
        rcases hgs1 with h1 | h1
        · rw [h1] at hg0
          exact hgok gid0 g0 hg0 i n hn nid hsrc
        · rw [h1] at hg0
          have hgl : gid0 < G.graphs.length + 1 := by
            have hx := (List.getElem?_eq_some.mp hg0).1
            simpa using hx
          by_cases hgl0 : gid0 < G.graphs.length
          · rw [List.getElem?_append_left hgl0] at hg0
            exact hgok gid0 g0 hg0 i n hn nid hsrc
          · have hgeq : gid0 = G.graphs.length := by omega
            rw [hgeq] at hg0
            simp at hg0
            rw [← hg0] at hn
            simp at hn

theorem construct_pdg_aux_wf (locs : LocMap) (events : List Event) :
    ∀ (G : Graphs) (prov : Prov) (out : Graphs × Prov),
    WF G prov → construct_pdg_aux locs events G prov = Except.ok out →
    WF out.1 out.2 := by
  induction events with
  | nil =>
    intro G prov out hwf h
    unfold construct_pdg_aux at h
    injection h with h
    rw [← h]
    exact hwf
  | cons e es ih =>
    intro G prov out hwf h
    unfold construct_pdg_aux at h
    cases ha : add_node locs G prov e with
    | error m =>
      rw [ha] at h
      exact absurd h (by simp)
    | ok o =>
      obtain ⟨G2, prov2, r⟩ := o
      rw [ha] at h
      simp only [] at h
      exact ih G2 prov2 out (add_node_wf locs G prov e (G2, prov2, r)
        hwf ha) h

/-- The empty assembly state satisfies the invariant. -/
theorem wf_empty : WF ⟨[], []⟩ [] := by
  refine ⟨?_, ?_, ?_⟩
  · intro p hp
    exact absurd hp (by simp)
  · intro p hp
    exact absurd hp (by simp)
  · intro gid g hg
    exact absurd hg (by simp)

/-- C9: in the graph forest assembled from any trace, every node whose
`source` is set refers to a node of the same graph that was appended
strictly earlier (its index is smaller), so there are no forward
references and no cycles. -/
theorem sources_point_backward (locs : LocMap) (events : List Event)
    (G : Graphs) (h : construct_pdg locs events = Except.ok G) :
    ∀ (gid : Nat) (g : Graph), G.graphs[gid]? = some g →
      ∀ (i : Nat) (n : Node), g.nodes[i]? = some n →
        ∀ nid : Nat, n.source = some nid → nid < i := by
  unfold construct_pdg at h
  cases ha : construct_pdg_aux locs events ⟨[], []⟩ [] with
  | error m =>
    rw [ha] at h
    exact absurd h (by simp [Except.map])
  | ok o =>
    rw [ha] at h
    simp only [Except.map] at h
    injection h with h
    have hwf := construct_pdg_aux_wf locs events ⟨[], []⟩ [] o wf_empty ha
    rw [← h]
    exact hwf.2.2

theorem sources_point_backward_witness : (0 : Nat) < 1 :=
  sources_point_backward locsTwoAlloc eventsTwoAlloc
    ⟨[⟨[⟨77, 2, 3, NodeKind.malloc 1, none, some ⟨5, []⟩⟩,
       ⟨77, 2, 4, NodeKind.malloc 1, some 0, none⟩]⟩],
     [((77, 5), (0, 0))]⟩ rfl 0
    ⟨[⟨77, 2, 3, NodeKind.malloc 1, none, some ⟨5, []⟩⟩,
      ⟨77, 2, 4, NodeKind.malloc 1, some 0, none⟩]⟩ rfl 1
    ⟨77, 2, 4, NodeKind.malloc 1, some 0, none⟩ rfl 0 rfl

end PDG
